import Mathlib

/-!
Verification of the flood-fill / undo-redo / canvas-resize core of the
spiral_animator drawing application (src/spiral_animator.py).

The Python source is shallowly embedded:
* pixel colors are 4-tuples of naturals (RGBA, 8 bits per channel);
* a pixel buffer is a total function from coordinates to colors, together
  with a width and a height (the function is only meaningful in bounds);
* the flood fill (DrawingScene.flood_fill) computes the 4-connected
  component of the equality mask via a monotone saturation, which is proved
  equivalent to the reflexive-transitive closure of 4-adjacency inside the
  mask (the specification-side notion of the scipy.ndimage.label component
  of the clicked pixel);
* QUndoStack / DrawCommand become an explicit stack of whole-frame
  before/after entries with a cursor, with Qt's semantics that pushing a
  command immediately applies its redo;
* AnimatorApp state relevant to the claims (frames, current frame index,
  undo stack, playback flag, canvas size) becomes the AppState structure,
  polymorphic in the frame-buffer type where the operations do not inspect
  pixels.
-/

namespace SpiralAnimator

/-- An RGBA color, 8 bits per channel (values are reduced mod 256 where the
source converts to uint8). -/
structure Color where
  r : Nat
  g : Nat
  b : Nat
  a : Nat
deriving DecidableEq

/-- The fully transparent color, used by QPixmap.fill(Qt.GlobalColor.transparent). -/
def transparent : Color := ⟨0, 0, 0, 0⟩

/-- A pixel coordinate (x, y). -/
abbrev Pt := Nat × Nat

/-- 8-bit alpha computed by QColor.setAlphaF(opacity / 100) followed by
extraction of the 8-bit alpha channel: opacity/100 * 255 rounded to the
nearest integer. -/
def alpha_of_opacity (opacity : Nat) : Nat := (opacity * 255 + 50) / 100

/-- The fill/pen color computed from the configured color and opacity in
DrawingScene.flood_fill and DrawingScene._get_pen: the configured color
with alpha set from the opacity. -/
def fill_color_of (c : Color) (opacity : Nat) : Color :=
  { c with a := alpha_of_opacity opacity }

/-- 4-connectivity of pixel coordinates: the structure element
[[0,1,0],[1,1,1],[0,1,0]] passed to scipy.ndimage.label. -/
def adjacent (p q : Pt) : Prop :=
  (p.1 = q.1 ∧ (p.2 + 1 = q.2 ∨ q.2 + 1 = p.2)) ∨
  (p.2 = q.2 ∧ (p.1 + 1 = q.1 ∨ q.1 + 1 = p.1))

instance (p q : Pt) : Decidable (adjacent p q) := by
  unfold adjacent
  infer_instance

/-- A pixel is part of the flood-fill mask iff it is inside the buffer and
its color equals the target color (np.all(arr == target_rgba_tuple, axis=2)). -/
def okPix (w h : Nat) (buf : Pt → Color) (target : Color) (q : Pt) : Prop :=
  q.1 < w ∧ q.2 < h ∧ buf q = target

instance (w h : Nat) (buf : Pt → Color) (target : Color) (q : Pt) :
    Decidable (okPix w h buf target q) := by
  unfold okPix
  infer_instance

/-- All in-bounds coordinates of a w × h buffer. -/
def grid (w h : Nat) : Finset Pt := Finset.range w ×ˢ Finset.range h

/-- One saturation step of connected-component growth: add every masked
in-bounds pixel 4-adjacent to the current set. -/
def growStep (w h : Nat) (buf : Pt → Color) (target : Color) (S : Finset Pt) :
    Finset Pt :=
  S ∪ (grid w h).filter (fun q => okPix w h buf target q ∧ ∃ p ∈ S, adjacent p q)

/-- n saturation steps starting from the clicked pixel. -/
def reachN (w h : Nat) (buf : Pt → Color) (target : Color) (start : Pt) :
    Nat → Finset Pt
  | 0 => {start}
  | n + 1 => growStep w h buf target (reachN w h buf target start n)

/-- The connected component of the clicked pixel in the equality mask:
w * h saturation steps always reach the fixpoint (proved below), so this is
the set of pixels labeled like the clicked one by scipy.ndimage.label. -/
def component (w h : Nat) (buf : Pt → Color) (target : Color) (start : Pt) :
    Finset Pt :=
  reachN w h buf target start (w * h)

/-- Specification-side notion of the flood-fill region: the pixels reachable
from the clicked pixel through chains of 4-adjacent in-bounds pixels whose
color equals the target color. -/
inductive Reach (w h : Nat) (buf : Pt → Color) (target : Color) (start : Pt) :
    Pt → Prop where
  | refl : Reach w h buf target start start
  | tail {p q : Pt} : Reach w h buf target start p → adjacent p q →
      okPix w h buf target q → Reach w h buf target start q

/-- DrawingScene.flood_fill up to and including the choice of the region to
recolor. Returns none on each early return of the source (start point out of
bounds; target color already equal to the fill color; clicked label is 0),
and the component of the clicked pixel otherwise. -/
def flood_fill_core (w h : Nat) (buf : Pt → Color) (fillC : Color) (start : Pt) :
    Option (Finset Pt) :=
  if start.1 < w ∧ start.2 < h then
    if buf start = fillC then none
    else if start ∈ component w h buf (buf start) start then
      some (component w h buf (buf start) start)
    else none
  else none

/-- The full buffer transformation of DrawingScene.flood_fill: recolor the
clicked component with the fill color (arr[fill_mask] = fill_rgba_tuple),
leaving the buffer unchanged on any early return. -/
def flood_fill (w h : Nat) (buf : Pt → Color) (fillC : Color) (start : Pt) :
    Pt → Color :=
  match flood_fill_core w h buf fillC start with
  | none => buf
  | some comp => fun p => if p ∈ comp then fillC else buf p

/-- A numpy array as consumed by numpy_to_qimage: shape (height, width,
channels), entries indexed (row, column, channel). Entries are arbitrary
naturals; arr.astype(np.uint8) reduces them mod 256. -/
structure NpArray where
  height : Nat
  width : Nat
  channels : Nat
  data : Nat → Nat → Nat → Nat

/-- A QImage in Format_RGBA8888: dimensions plus a pixel map. -/
structure QImg where
  width : Nat
  height : Nat
  pix : Pt → Color

/-- The error raised by a conversion-step precondition violation
(ValueError("Numpy array must be (h, w, 4) with RGBA channels") in the source). -/
inductive ConvError where
  | invalidFormat : ConvError
deriving DecidableEq

/-- numpy_to_qimage: coerce entries to uint8, then require exactly 4
channels, raising otherwise; on success build the RGBA8888 image whose pixel
(x, y) is row y, column x of the array. -/
def numpy_to_qimage (arr : NpArray) : Except ConvError QImg :=
  if arr.channels = 4 then
    Except.ok
      { width := arr.width, height := arr.height,
        pix := fun p =>
          { r := arr.data p.2 p.1 0 % 256, g := arr.data p.2 p.1 1 % 256,
            b := arr.data p.2 p.1 2 % 256, a := arr.data p.2 p.1 3 % 256 } }
  else Except.error ConvError.invalidFormat

/-- An injectable stream of draws from random.random(), each intended to lie
in [0, 1). -/
def RandStream := Nat → ℚ

/-- Discard the first k draws of a stream. -/
def rngDrop (k : Nat) (rs : RandStream) : RandStream := fun n => rs (n + k)

/-- DrawingScene._get_wavery_point: when drunkenness is 0 return the point
unchanged consuming no randomness; otherwise displace each coordinate by
(random() - 0.5) * drunkenness, consuming two draws. -/
def wavery_point (d : ℚ) (p : ℚ × ℚ) (rs : RandStream) : (ℚ × ℚ) × RandStream :=
  if d = 0 then (p, rs)
  else ((p.1 + (rs 0 - 1/2) * d, p.2 + (rs 1 - 1/2) * d), rngDrop 2 rs)

/-- The loop body of DrawingScene._spray_paint: n jittered points, each
offset from the center by (random() - 0.5) * radius * 2 per axis and then
passed through the wavery displacement. -/
def spray_loop (d radius : ℚ) (center : ℚ × ℚ) : Nat → RandStream → List (ℚ × ℚ)
  | 0, _ => []
  | n + 1, rs =>
    let ox := (rs 0 - 1/2) * radius * 2
    let oy := (rs 1 - 1/2) * radius * 2
    let pr := wavery_point d (center.1 + ox, center.2 + oy) (rngDrop 2 rs)
    pr.1 :: spray_loop d radius center n pr.2

/-- The marks drawn by one call of DrawingScene._spray_paint: the pen color
and width it configures, and the point positions it draws. -/
structure SprayOut where
  penColor : Color
  penWidth : Nat
  points : List (ℚ × ℚ)

/-- DrawingScene._spray_paint: pen of the configured color with alpha from
the opacity and width max(1, size // 4); density = size * 2 points; radius =
size * 1.5. -/
def spray_paint (c : Color) (opacity size : Nat) (d : ℚ) (center : ℚ × ℚ)
    (rs : RandStream) : SprayOut :=
  { penColor := fill_color_of c opacity,
    penWidth := max 1 (size / 4),
    points := spray_loop d ((size : ℚ) * 3 / 2) center (size * 2) rs }

/-- A frame pixel buffer (QPixmap contents): dimensions plus a pixel map,
meaningful on coordinates inside the bounds. -/
structure Pixmap where
  width : Nat
  height : Nat
  pix : Pt → Color

/-- A DrawCommand's payload: the affected frame index, and whole-frame
before/after snapshots. -/
structure Entry (α : Type) where
  frame_index : Nat
  before : α
  after : α

/-- The AnimatorApp state the claims are about: the frame list, the current
frame index, the undo stack (entries plus the QUndoStack cursor: the number
of commands currently in the done state), the playback flag, and the canvas
size. Polymorphic in the frame-buffer type, since the history machinery
never inspects pixels. -/
structure AppState (α : Type) where
  frames : List α
  current_frame_index : Nat
  stack : List (Entry α)
  index : Nat
  is_playing : Bool
  canvas_w : Nat
  canvas_h : Nat

/-- QUndoStack.push with Qt semantics: drop the commands beyond the cursor,
append the new command, and apply its redo (DrawCommand.redo replaces the
frame at frame_index by the after snapshot). -/
def push {α : Type} (s : AppState α) (e : Entry α) : AppState α :=
  { s with
    frames := s.frames.set e.frame_index e.after,
    stack := s.stack.take s.index ++ [e],
    index := s.index + 1 }

/-- QUndoStack.undo: if a done command exists, apply DrawCommand.undo
(replace the frame at frame_index by the before snapshot) and move the
cursor back. -/
def undo {α : Type} (s : AppState α) : AppState α :=
  match s.index, s.stack.get? (s.index - 1) with
  | 0, _ => s
  | _ + 1, none => s
  | _ + 1, some e =>
    { s with frames := s.frames.set e.frame_index e.before, index := s.index - 1 }

/-- QUndoStack.redo: if an undone command exists, apply DrawCommand.redo and
advance the cursor. -/
def redo {α : Type} (s : AppState α) : AppState α :=
  match s.stack.get? s.index with
  | none => s
  | some e =>
    { s with frames := s.frames.set e.frame_index e.after, index := s.index + 1 }

/-- One recorded edit of frame i with resulting content a: the before
snapshot is the frame's current content (captured at gesture start), and the
command is pushed, which installs the after content. Models a full recorded
stroke, a fill commit, or a frame clear. -/
def record_edit {α : Type} (s : AppState α) (i : Nat) (a : α) : AppState α :=
  push s ⟨i, s.frames.getD i a, a⟩

/-- A sequence of recorded edits, each given by its frame index and its
resulting frame content. -/
def apply_edits {α : Type} (s : AppState α) : List (Nat × α) → AppState α
  | [] => s
  | e :: es => apply_edits (record_edit s e.1 e.2) es

/-- Call undo n times. -/
def undoN {α : Type} : Nat → AppState α → AppState α
  | 0, s => s
  | n + 1, s => undoN n (undo s)

/-- Call redo n times. -/
def redoN {α : Type} : Nat → AppState α → AppState α
  | 0, s => s
  | n + 1, s => redoN n (redo s)

/-- A complete press-draw-release gesture of a non-fill tool with resulting
frame content a. mouseReleaseEvent pushes one DrawCommand only when playback
is inactive; during playback the buffer is mutated with no history entry
(the content reaches the frame list through the scene-to-frame copies in
next_frame / toggle_playback). -/
def stroke_event {α : Type} (s : AppState α) (a : α) : AppState α :=
  if s.is_playing then
    { s with frames := s.frames.set s.current_frame_index a }
  else record_edit s s.current_frame_index a

/-- A fill click: mousePressEvent captures the current frame content as the
before snapshot and calls DrawingScene.flood_fill, which pushes a
DrawCommand whenever the fill is not an early-return no-op. The source
performs no is_playing check on this path. -/
def fill_event (s : AppState Pixmap) (c : Color) (opacity : Nat) (start : Pt) :
    AppState Pixmap :=
  match s.frames.get? s.current_frame_index with
  | none => s
  | some pm =>
    match flood_fill_core pm.width pm.height pm.pix (fill_color_of c opacity) start with
    | none => s
    | some comp =>
      push s
        ⟨s.current_frame_index, pm,
          { pm with
            pix := fun p => if p ∈ comp then fill_color_of c opacity else pm.pix p }⟩

/-- AnimatorApp.set_current_frame: switch the active frame (no-op when the
index is out of range or already current) and clear the undo stack. -/
def set_current_frame {α : Type} (s : AppState α) (idx : Nat) : AppState α :=
  if idx < s.frames.length then
    if idx = s.current_frame_index then s
    else { s with current_frame_index := idx, stack := [], index := 0 }
  else s

/-- AnimatorApp.next_frame (the playback timer handler): advance the current
frame index cyclically. The source deliberately performs a lightweight frame
change here that does not clear the undo stack. -/
def next_frame {α : Type} (s : AppState α) : AppState α :=
  if s.frames.length > 0 then
    { s with current_frame_index := (s.current_frame_index + 1) % s.frames.length }
  else s

/-- AnimatorApp.delete_current_frame: remove the current frame (refusing to
delete the last one), clear the undo stack, and clamp the current index. -/
def delete_current_frame {α : Type} (s : AppState α) : AppState α :=
  if 1 < s.frames.length then
    { s with
      frames := s.frames.eraseIdx s.current_frame_index,
      current_frame_index := min s.current_frame_index (s.frames.length - 2),
      stack := [], index := 0 }
  else s

/-- AnimatorApp.new_animation (after confirmation): drop all frames, reset
the canvas size to 800 × 600, clear the undo stack, and add one blank frame
which becomes current. -/
def new_animation {α : Type} (blank : α) (s : AppState α) : AppState α :=
  { frames := [blank], current_frame_index := 0, stack := [], index := 0,
    is_playing := s.is_playing, canvas_w := 800, canvas_h := 600 }

/-- Which canvas edges a resize drag grabs ('left' / 'right' / 'top' /
'bottom' substrings of the resize_edge string; corners set two of them). -/
structure Edge where
  left : Bool
  right : Bool
  top : Bool
  bottom : Bool

def edge_left : Edge := ⟨true, false, false, false⟩

def edge_right : Edge := ⟨false, true, false, false⟩

def edge_top : Edge := ⟨false, false, true, false⟩

def edge_bottom : Edge := ⟨false, false, false, true⟩

/-- The new canvas width computed by AnimatorApp.finalize_canvas_resize:
shrink by the drag delta when the left edge is grabbed, grow when the right
edge is, then clamp to the 100-pixel minimum. -/
def resize_new_w (s : AppState Pixmap) (dx : Int) (edge : Edge) : Int :=
  max ((s.canvas_w : Int) - (if edge.left then dx else 0)
        + (if edge.right then dx else 0)) 100

/-- The new canvas height, symmetric to resize_new_w. -/
def resize_new_h (s : AppState Pixmap) (dy : Int) (edge : Edge) : Int :=
  max ((s.canvas_h : Int) - (if edge.top then dy else 0)
        + (if edge.bottom then dy else 0)) 100

/-- The horizontal content shift applied to every frame: old width minus new
width when the left edge was dragged (recomputed after clamping), else 0. -/
def resize_shift_x (s : AppState Pixmap) (dx : Int) (edge : Edge) : Int :=
  if edge.left then (s.canvas_w : Int) - resize_new_w s dx edge else 0

/-- The vertical content shift, symmetric to resize_shift_x. -/
def resize_shift_y (s : AppState Pixmap) (dy : Int) (edge : Edge) : Int :=
  if edge.top then (s.canvas_h : Int) - resize_new_h s dy edge else 0

/-- One frame buffer rebuilt at the new size: a transparent buffer with the
old pixmap painted at offset (shiftX, shiftY)
(painter.drawPixmap(shift_x, shift_y, old_pixmap) over transparent). -/
def resized_pixmap (shiftX shiftY : Int) (newW newH : Nat) (old : Pixmap) :
    Pixmap :=
  { width := newW, height := newH,
    pix := fun p =>
      if 0 ≤ (p.1 : Int) - shiftX ∧ (p.1 : Int) - shiftX < (old.width : Int) ∧
          0 ≤ (p.2 : Int) - shiftY ∧ (p.2 : Int) - shiftY < (old.height : Int) then
        old.pix (((p.1 : Int) - shiftX).toNat, ((p.2 : Int) - shiftY).toNat)
      else transparent }

/-- AnimatorApp.finalize_canvas_resize: compute the new size and content
shift from the drag's scene positions and the grabbed edge; if the size
effectively changed, replace every frame by its rebuilt buffer and record
the new canvas size. The undo stack is left untouched. -/
def finalize_canvas_resize (s : AppState Pixmap) (last cur : Int × Int)
    (edge : Edge) : AppState Pixmap :=
  let newW := resize_new_w s (cur.1 - last.1) edge
  let newH := resize_new_h s (cur.2 - last.2) edge
  if newW = (s.canvas_w : Int) ∧ newH = (s.canvas_h : Int) then s
  else
    { s with
      canvas_w := newW.toNat, canvas_h := newH.toNat,
      frames := s.frames.map
        (resized_pixmap (resize_shift_x s (cur.1 - last.1) edge)
          (resize_shift_y s (cur.2 - last.2) edge) newW.toNat newH.toNat) }

/-- The state s with its frame list and history cursor replaced (stack and
all other fields kept): the shape shared by the undo/redo transitions. -/
def with_fi {α : Type} (s : AppState α) (f : List α) (i : Nat) : AppState α :=
  { s with frames := f, index := i }

/-! Concrete fixtures used to instantiate the theorems below. -/

def black : Color := ⟨0, 0, 0, 255⟩

def white : Color := ⟨255, 255, 255, 255⟩

def redC : Color := ⟨255, 0, 0, 255⟩

/-- A 2 × 2 checkerboard buffer: black where x + y is even, white elsewhere,
so the two black pixels touch only diagonally. -/
def cb : Pt → Color := fun p => if (p.1 + p.2) % 2 = 0 then black else white

/-- An all-black buffer. -/
def bk1 : Pt → Color := fun _ => black

def pm_black : Pixmap := ⟨1, 1, fun _ => black⟩

def pm_red : Pixmap := ⟨1, 1, fun _ => redC⟩

/-- A playing app with one all-black 1 × 1 frame and empty history. -/
def c2_state : AppState Pixmap :=
  { frames := [pm_black], current_frame_index := 0, stack := [], index := 0,
    is_playing := true, canvas_w := 1, canvas_h := 1 }

def c3_state : AppState Nat :=
  { frames := [3], current_frame_index := 0, stack := [], index := 0,
    is_playing := false, canvas_w := 800, canvas_h := 600 }

/-- A playing app with two frames and one recorded edit in its history. -/
def c4_state : AppState Nat :=
  { frames := [1, 2], current_frame_index := 0, stack := [⟨0, 1, 9⟩], index := 1,
    is_playing := true, canvas_w := 800, canvas_h := 600 }

/-- A 120 × 110 coordinate-coded pixmap. -/
def pm_grad : Pixmap := ⟨120, 110, fun p => ⟨p.1 % 256, p.2 % 256, 0, 255⟩⟩

def c5_state : AppState Pixmap :=
  { frames := [pm_grad], current_frame_index := 0, stack := [], index := 0,
    is_playing := false, canvas_w := 120, canvas_h := 110 }

def pmA0 : Pixmap := ⟨100, 100, fun _ => transparent⟩

def pmA : Pixmap := ⟨100, 100, fun _ => black⟩

def pmB : Pixmap := ⟨100, 100, fun _ => white⟩

/-- Two 100 × 100 frames on a 100 × 100 canvas, with one recorded edit of
frame 0 in the history. -/
def c6_state : AppState Pixmap :=
  { frames := [pmA, pmB], current_frame_index := 0, stack := [⟨0, pmA0, pmA⟩],
    index := 1, is_playing := false, canvas_w := 100, canvas_h := 100 }

/-- c6_state after dragging the right canvas edge outward by 50 and then
undoing the pre-resize edit. -/
def c6_after : AppState Pixmap :=
  undo (finalize_canvas_resize c6_state (100, 50) (150, 50) edge_right)

/-- A non-playing app with one all-red 1 × 1 frame. -/
def c7_state : AppState Pixmap :=
  { frames := [pm_red], current_frame_index := 0, stack := [], index := 0,
    is_playing := false, canvas_w := 1, canvas_h := 1 }

/-- A 2 × 2 × 3 array (wrong channel count). -/
def arr3 : NpArray := ⟨2, 2, 3, fun _ _ _ => 0⟩

/-- A 2 × 2 × 4 RGBA array. -/
def arr4 : NpArray := ⟨2, 2, 4, fun _ _ _ => 7⟩

/-- The constant random stream always drawing 0.95. -/
def rs95 : RandStream := fun _ => (19 : ℚ) / 20

/-! ## Connected-component saturation: helper lemmas -/

theorem start_mem_grid {w h : Nat} {start : Pt} (hx : start.1 < w)
    (hy : start.2 < h) : start ∈ grid w h := by
  unfold grid
  exact Finset.mem_product.mpr ⟨Finset.mem_range.mpr hx, Finset.mem_range.mpr hy⟩

theorem subset_growStep (w h : Nat) (buf : Pt → Color) (target : Color)
    (S : Finset Pt) : S ⊆ growStep w h buf target S :=
  Finset.subset_union_left

theorem reachN_mono_succ (w h : Nat) (buf : Pt → Color) (target : Color)
    (start : Pt) (n : Nat) :
    reachN w h buf target start n ⊆ reachN w h buf target start (n + 1) :=
  subset_growStep w h buf target _

theorem reachN_mono (w h : Nat) (buf : Pt → Color) (target : Color) (start : Pt)
    {m n : Nat} (hmn : m ≤ n) :
    reachN w h buf target start m ⊆ reachN w h buf target start n := by
  induction hmn with
  | refl => exact subset_rfl
  | step _ ih => exact ih.trans (reachN_mono_succ w h buf target start _)

theorem mem_reachN_reach {w h : Nat} {buf : Pt → Color} {target : Color}
    {start : Pt} : ∀ {n : Nat} {q : Pt},
    q ∈ reachN w h buf target start n → Reach w h buf target start q := by
  intro n
  induction n with
  | zero =>
    intro q hq
    rw [reachN, Finset.mem_singleton] at hq
    subst hq
    exact Reach.refl
  | succ n ih =>
    intro q hq
    rw [reachN] at hq
    rcases Finset.mem_union.mp hq with h1 | h2
    · exact ih h1
    · obtain ⟨_, hok, p, hp, hadj⟩ := Finset.mem_filter.mp h2
      exact Reach.tail (ih hp) hadj hok

theorem reach_mem_reachN {w h : Nat} {buf : Pt → Color} {target : Color}
    {start q : Pt} (hr : Reach w h buf target start q) :
    ∃ n, q ∈ reachN w h buf target start n := by
  induction hr with
  | refl => exact ⟨0, by simp [reachN]⟩
  | @tail p q _ hadj hok ih =>
    obtain ⟨n, hn⟩ := ih
    refine ⟨n + 1, ?_⟩
    rw [reachN]
    refine Finset.mem_union_right _ (Finset.mem_filter.mpr ?_)
    exact ⟨start_mem_grid hok.1 hok.2.1, hok, p, hn, hadj⟩

theorem reachN_stab {w h : Nat} {buf : Pt → Color} {target : Color} {start : Pt}
    {n : Nat}
    (hst : reachN w h buf target start (n + 1) = reachN w h buf target start n) :
    ∀ k, reachN w h buf target start (n + k) = reachN w h buf target start n := by
  intro k
  induction k with
  | zero => rfl
  | succ k ih =>
    show growStep w h buf target (reachN w h buf target start (n + k)) =
      reachN w h buf target start n
    rw [ih]
    exact hst

theorem reachN_subset_grid {w h : Nat} {buf : Pt → Color} {target : Color}
    {start : Pt} (hs : start ∈ grid w h) :
    ∀ n, reachN w h buf target start n ⊆ grid w h := by
  intro n
  induction n with
  | zero => exact Finset.singleton_subset_iff.mpr hs
  | succ n ih => exact Finset.union_subset ih (Finset.filter_subset _ _)

theorem card_grid (w h : Nat) : (grid w h).card = w * h := by
  unfold grid
  rw [Finset.card_product, Finset.card_range, Finset.card_range]

theorem reachN_growth {w h : Nat} {buf : Pt → Color} {target : Color}
    {start : Pt} : ∀ n : Nat,
    (∃ m, m ≤ n ∧ reachN w h buf target start (m + 1) =
      reachN w h buf target start m) ∨
    n + 1 ≤ (reachN w h buf target start n).card := by
  intro n
  induction n with
  | zero =>
    right
    simp [reachN]
  | succ n ih =>
    rcases ih with ⟨m, hm, he⟩ | hc
    · exact Or.inl ⟨m, Nat.le_succ_of_le hm, he⟩
    · by_cases he : reachN w h buf target start (n + 1) =
        reachN w h buf target start n
      · exact Or.inl ⟨n, Nat.le_succ n, he⟩
      · right
        have hmono := reachN_mono_succ w h buf target start n
        have hlt : ¬ ((reachN w h buf target start (n + 1)).card ≤
            (reachN w h buf target start n).card) := by
          intro hle
          exact he (Finset.eq_of_subset_of_card_le hmono hle).symm
        omega

theorem reach_mem_component {w h : Nat} {buf : Pt → Color} {target : Color}
    {start q : Pt} (hs : start ∈ grid w h)
    (hr : Reach w h buf target start q) :
    q ∈ component w h buf target start := by
  obtain ⟨k, hk⟩ := reach_mem_reachN hr
  rcases le_or_lt k (w * h) with hle | hlt
  · exact reachN_mono w h buf target start hle hk
  · rcases reachN_growth (w * h) with ⟨m, hm, hstab⟩ | hcard
    · have h1 : reachN w h buf target start k = reachN w h buf target start m := by
        have h2 := reachN_stab hstab (k - m)
        rwa [Nat.add_sub_cancel' (le_trans hm (le_of_lt hlt))] at h2
      exact reachN_mono w h buf target start hm (h1 ▸ hk)
    · exfalso
      have hsub := @reachN_subset_grid w h buf target start hs (w * h)
      have hle2 := Finset.card_le_card hsub
      rw [card_grid] at hle2
      omega

theorem start_mem_component (w h : Nat) (buf : Pt → Color) (target : Color)
    (start : Pt) : start ∈ component w h buf target start :=
  reachN_mono w h buf target start (Nat.zero_le _) (by simp [reachN])

theorem mem_component_iff (w h : Nat) (buf : Pt → Color) (target : Color)
    (start q : Pt) (hs : start ∈ grid w h) :
    q ∈ component w h buf target start ↔ Reach w h buf target start q :=
  ⟨mem_reachN_reach, reach_mem_component hs⟩

theorem flood_fill_core_eq_some {w h : Nat} {buf : Pt → Color} {fillC : Color}
    {start : Pt} (hx : start.1 < w) (hy : start.2 < h)
    (hne : buf start ≠ fillC) :
    flood_fill_core w h buf fillC start =
      some (component w h buf (buf start) start) := by
  unfold flood_fill_core
  rw [if_pos ⟨hx, hy⟩, if_neg hne,
    if_pos (start_mem_component w h buf (buf start) start)]

/-! ## Claim theorems: flood fill -/

/-- C1: for every in-bounds start pixel whose color differs from the fill
color, flood fill replaces exactly the maximal 4-connected region of pixels
whose RGBA exactly equals the color read at the start pixel and containing
the start pixel with the fill color, and leaves every pixel outside that
region (in particular same-colored pixels touching it only diagonally or not
4-connected to the start) unchanged. -/
theorem flood_fill_region_spec (w h : Nat) (buf : Pt → Color) (fillC : Color)
    (start p : Pt) (hx : start.1 < w) (hy : start.2 < h)
    (hne : buf start ≠ fillC) :
    (Reach w h buf (buf start) start p →
      flood_fill w h buf fillC start p = fillC) ∧
    (¬ Reach w h buf (buf start) start p →
      flood_fill w h buf fillC start p = buf p) := by
  have hcore := flood_fill_core_eq_some hx hy hne
  have hiff := mem_component_iff w h buf (buf start) start p (start_mem_grid hx hy)
  constructor
  · intro hr
    simp only [flood_fill, hcore]
    rw [if_pos (hiff.mpr hr)]
  · intro hr
    simp only [flood_fill, hcore]
    rw [if_neg (fun hm => hr (hiff.mp hm))]

theorem flood_fill_region_spec_witness :
    cb (0, 0) ≠ redC ∧
    flood_fill 2 2 cb redC (0, 0) (0, 0) = redC ∧
    flood_fill 2 2 cb redC (0, 0) (1, 1) = cb (1, 1) := by
  refine ⟨by decide, ?_, ?_⟩
  · exact (flood_fill_region_spec 2 2 cb redC (0, 0) (0, 0) (by decide)
      (by decide) (by decide)).1 Reach.refl
  · exact (flood_fill_region_spec 2 2 cb redC (0, 0) (1, 1) (by decide)
      (by decide) (by decide)).2
      (fun hr => absurd ((mem_component_iff 2 2 cb (cb (0, 0)) (0, 0) (1, 1)
        (by decide)).mpr hr) (by decide))

/-- C10: for every in-bounds start pixel that passes the
target-equals-fill guard, the component label at the clicked pixel is never
0 (the clicked-on-a-non-target-area early return is unreachable, since the
equality mask holds at the clicked pixel by construction), so the fill
always recolors at least the clicked pixel. -/
theorem flood_fill_label_nonzero (w h : Nat) (buf : Pt → Color) (fillC : Color)
    (start : Pt) (hx : start.1 < w) (hy : start.2 < h)
    (hne : buf start ≠ fillC) :
    flood_fill_core w h buf fillC start =
      some (component w h buf (buf start) start) ∧
    flood_fill w h buf fillC start start = fillC := by
  refine ⟨flood_fill_core_eq_some hx hy hne, ?_⟩
  simp only [flood_fill, flood_fill_core_eq_some hx hy hne]
  rw [if_pos (start_mem_component w h buf (buf start) start)]

theorem flood_fill_label_nonzero_witness :
    bk1 (0, 0) ≠ redC ∧
    (flood_fill_core 1 1 bk1 redC (0, 0) =
        some (component 1 1 bk1 (bk1 (0, 0)) (0, 0)) ∧
      flood_fill 1 1 bk1 redC (0, 0) (0, 0) = redC) :=
  ⟨by decide,
    flood_fill_label_nonzero 1 1 bk1 redC (0, 0) (by decide) (by decide)
      (by decide)⟩

/-- C7: for every in-bounds start pixel whose exact RGBA value already
equals the computed fill color (configured color with alpha from the
opacity), flood fill is a no-op: the whole application state — buffer and
history alike — is unchanged. -/
theorem fill_idempotent (s : AppState Pixmap) (pm : Pixmap) (c : Color)
    (opacity : Nat) (start : Pt)
    (hpm : s.frames.get? s.current_frame_index = some pm)
    (hx : start.1 < pm.width) (hy : start.2 < pm.height)
    (heq : pm.pix start = fill_color_of c opacity) :
    fill_event s c opacity start = s := by
  have hcore : flood_fill_core pm.width pm.height pm.pix
      (fill_color_of c opacity) start = none := by
    unfold flood_fill_core
    rw [if_pos ⟨hx, hy⟩, if_pos heq]
  simp only [fill_event, hpm, hcore]

theorem fill_idempotent_witness :
    pm_red.pix (0, 0) = fill_color_of redC 100 ∧
    fill_event c7_state redC 100 (0, 0) = c7_state :=
  ⟨by decide,
    fill_idempotent c7_state pm_red redC 100 (0, 0) rfl (by decide) (by decide)
      (by decide)⟩

/-! ## Undo/redo history: helper lemmas -/

theorem set_getD_self {α : Type} (l : List α) (i : Nat) (d : α) :
    l.set i (l.getD i d) = l := by
  induction l generalizing i with
  | nil => rfl
  | cons x xs ih =>
    cases i with
    | zero => rfl
    | succ n =>
      show x :: xs.set n ((x :: xs).getD (n + 1) d) = x :: xs
      rw [List.getD_cons_succ, ih]

theorem undoN_comm {α : Type} (n : Nat) (s : AppState α) :
    undoN n (undo s) = undo (undoN n s) := by
  induction n generalizing s with
  | zero => rfl
  | succ n ih => exact ih (undo s)

theorem undoN_succ {α : Type} (n : Nat) (s : AppState α) :
    undoN (n + 1) s = undo (undoN n s) :=
  undoN_comm n s

theorem with_fi_with_fi {α : Type} (t : AppState α) (f g : List α) (i j : Nat) :
    with_fi (with_fi t f i) g j = with_fi t g j := rfl

theorem undo_eq {α : Type} (s : AppState α) (e : Entry α) (i : Nat)
    (hi : s.index = i + 1) (hg : s.stack.get? i = some e) :
    undo s = with_fi s (s.frames.set e.frame_index e.before) i := by
  unfold undo
  rw [hi]
  simp only [Nat.add_sub_cancel]
  rw [hg]
  rfl

theorem redo_eq {α : Type} (s : AppState α) (e : Entry α)
    (hg : s.stack.get? s.index = some e) :
    redo s = with_fi s (s.frames.set e.frame_index e.after) (s.index + 1) := by
  unfold redo
  rw [hg]
  rfl

theorem record_edit_index {α : Type} (s : AppState α) (i : Nat) (a : α) :
    (record_edit s i a).index = s.index + 1 := rfl

theorem record_edit_stack {α : Type} (s : AppState α) (i : Nat) (a : α) :
    (record_edit s i a).stack =
      s.stack.take s.index ++ [⟨i, s.frames.getD i a, a⟩] := rfl

theorem record_edit_stack_len {α : Type} (s : AppState α) (i : Nat) (a : α)
    (hle : s.index ≤ s.stack.length) :
    (record_edit s i a).stack.length = s.index + 1 := by
  rw [record_edit_stack, List.length_append, List.length_take,
    Nat.min_eq_left hle]
  rfl

theorem apply_edits_stack {α : Type} (es : List (Nat × α)) :
    ∀ s : AppState α, s.index = s.stack.length →
    ∃ ext : List (Entry α),
      (apply_edits s es).stack = s.stack ++ ext ∧
      (apply_edits s es).index = s.index + es.length ∧
      (apply_edits s es).index = (apply_edits s es).stack.length := by
  induction es with
  | nil =>
    intro s hwf
    exact ⟨[], by simp [apply_edits], by simp [apply_edits],
      by simp [apply_edits, hwf]⟩
  | cons e es ih =>
    intro s hwf
    have hstk : (record_edit s e.1 e.2).stack =
        s.stack ++ [⟨e.1, s.frames.getD e.1 e.2, e.2⟩] := by
      rw [record_edit_stack, hwf, List.take_length]
    have hwf1 : (record_edit s e.1 e.2).index =
        (record_edit s e.1 e.2).stack.length := by
      rw [record_edit_index, hstk, List.length_append, hwf]
      rfl
    obtain ⟨ext, h1, h2, h3⟩ := ih (record_edit s e.1 e.2) hwf1
    refine ⟨⟨e.1, s.frames.getD e.1 e.2, e.2⟩ :: ext, ?_, ?_, h3⟩
    · show (apply_edits (record_edit s e.1 e.2) es).stack = _
      rw [h1, hstk, List.append_assoc]
      rfl
    · show (apply_edits (record_edit s e.1 e.2) es).index = _
      rw [h2, record_edit_index]
      show s.index + 1 + es.length = s.index + (es.length + 1)
      omega

theorem apply_edits_get {α : Type} (es : List (Nat × α)) (s : AppState α)
    (hle : s.index ≤ s.stack.length) (e : Nat × α) :
    (apply_edits (record_edit s e.1 e.2) es).stack.get? s.index =
      some ⟨e.1, s.frames.getD e.1 e.2, e.2⟩ := by
  have hwf1 : (record_edit s e.1 e.2).index =
      (record_edit s e.1 e.2).stack.length := by
    rw [record_edit_index, record_edit_stack_len s e.1 e.2 hle]
  obtain ⟨ext, h1, _, _⟩ := apply_edits_stack es (record_edit s e.1 e.2) hwf1
  have htl : (s.stack.take s.index).length = s.index := by
    rw [List.length_take, Nat.min_eq_left hle]
  have hcat := List.get?_concat_length (s.stack.take s.index)
    (⟨e.1, s.frames.getD e.1 e.2, e.2⟩ : Entry α)
  rw [htl] at hcat
  rw [h1, record_edit_stack, List.get?_append]
  · exact hcat
  · simp [htl]

theorem undoN_apply_edits {α : Type} (es : List (Nat × α)) :
    ∀ s : AppState α, s.index ≤ s.stack.length →
    undoN es.length (apply_edits s es) =
      with_fi (apply_edits s es) s.frames s.index := by
  induction es with
  | nil =>
    intro s _
    rfl
  | cons e es ih =>
    intro s hle
    have hle1 : (record_edit s e.1 e.2).index ≤
        (record_edit s e.1 e.2).stack.length := by
      rw [record_edit_index, record_edit_stack_len s e.1 e.2 hle]
    have hget := apply_edits_get es s hle e
    show undoN (es.length + 1) (apply_edits (record_edit s e.1 e.2) es) = _
    rw [undoN_succ, ih (record_edit s e.1 e.2) hle1,
      undo_eq (with_fi (apply_edits (record_edit s e.1 e.2) es)
        (record_edit s e.1 e.2).frames (record_edit s e.1 e.2).index)
        ⟨e.1, s.frames.getD e.1 e.2, e.2⟩ s.index rfl hget,
      with_fi_with_fi]
    congr 1
    show (s.frames.set e.1 e.2).set e.1 (s.frames.getD e.1 e.2) = s.frames
    rw [List.set_set, set_getD_self]

theorem redoN_apply_edits {α : Type} (es : List (Nat × α)) :
    ∀ s : AppState α, s.index ≤ s.stack.length →
    redoN es.length (with_fi (apply_edits s es) s.frames s.index) =
      apply_edits s es := by
  induction es with
  | nil =>
    intro s _
    rfl
  | cons e es ih =>
    intro s hle
    have hle1 : (record_edit s e.1 e.2).index ≤
        (record_edit s e.1 e.2).stack.length := by
      rw [record_edit_index, record_edit_stack_len s e.1 e.2 hle]
    have hget := apply_edits_get es s hle e
    show redoN es.length
      (redo (with_fi (apply_edits (record_edit s e.1 e.2) es)
        s.frames s.index)) = apply_edits (record_edit s e.1 e.2) es
    rw [redo_eq (with_fi (apply_edits (record_edit s e.1 e.2) es)
        s.frames s.index) ⟨e.1, s.frames.getD e.1 e.2, e.2⟩ hget,
      with_fi_with_fi]
    have hx : (with_fi (apply_edits (record_edit s e.1 e.2) es)
        s.frames s.index).frames.set
        (⟨e.1, s.frames.getD e.1 e.2, e.2⟩ : Entry α).frame_index
        (⟨e.1, s.frames.getD e.1 e.2, e.2⟩ : Entry α).after =
        (record_edit s e.1 e.2).frames := rfl
    have hj : (with_fi (apply_edits (record_edit s e.1 e.2) es)
        s.frames s.index).index + 1 = (record_edit s e.1 e.2).index := rfl
    rw [hx, hj]
    exact ih (record_edit s e.1 e.2) hle1

/-! ## Claim theorem: undo/redo round-trip -/

/-- C3: for every sequence of N recorded edits (strokes, fills, or frame
clears, each recorded as a whole-frame before/after entry), calling undo N
times restores the frame list to its pre-edit state, and calling redo N
times after that restores the whole post-edit state; in particular undo
followed by redo of a single entry is a no-op relative to the state
immediately after the original edit. -/
theorem undo_redo_roundtrip {α : Type} (s : AppState α) (es : List (Nat × α))
    (hle : s.index ≤ s.stack.length) :
    (undoN es.length (apply_edits s es)).frames = s.frames ∧
    redoN es.length (undoN es.length (apply_edits s es)) = apply_edits s es := by
  rw [undoN_apply_edits es s hle]
  exact ⟨rfl, redoN_apply_edits es s hle⟩

theorem undo_redo_roundtrip_witness :
    c3_state.index ≤ c3_state.stack.length ∧
    ((undoN 2 (apply_edits c3_state [(0, 5), (0, 7)])).frames = c3_state.frames ∧
      redoN 2 (undoN 2 (apply_edits c3_state [(0, 5), (0, 7)])) =
        apply_edits c3_state [(0, 5), (0, 7)]) :=
  ⟨by decide, undo_redo_roundtrip c3_state [(0, 5), (0, 7)] (by decide)⟩

/-! ## Claim theorems: playback edits and history scoping -/

/-- C2 counterexample: with playback active, a fill click on a 1 × 1 black
frame pushes a history entry, so the claim that no edit performed during
playback pushes onto the undo stack fails on fills. -/
theorem c2_counterexample :
    c2_state.is_playing = true ∧
    (fill_event c2_state redC 100 (0, 0)).stack.length =
      c2_state.stack.length + 1 := by
  constructor
  · rfl
  · rfl

/-- C2 amended: edits performed while playback is active mutate the frame
buffer; strokes (non-fill tools) push no history entry, but a fill that
passes the flood-fill guards pushes a history entry regardless of the
playback state (the is_playing check guards only the non-fill path). -/
theorem playback_edit_history (s : AppState Pixmap) (a pm : Pixmap) (c : Color)
    (opacity : Nat) (start : Pt) (hplay : s.is_playing = true)
    (hpm : s.frames.get? s.current_frame_index = some pm)
    (hx : start.1 < pm.width) (hy : start.2 < pm.height)
    (hne : pm.pix start ≠ fill_color_of c opacity) :
    (stroke_event s a).stack = s.stack ∧
    (stroke_event s a).index = s.index ∧
    (stroke_event s a).frames = s.frames.set s.current_frame_index a ∧
    ∃ e : Entry Pixmap,
      (fill_event s c opacity start).stack = s.stack.take s.index ++ [e] ∧
      (fill_event s c opacity start).index = s.index + 1 := by
  refine ⟨?_, ?_, ?_, ?_⟩
  · simp [stroke_event, hplay]
  · simp [stroke_event, hplay]
  · simp [stroke_event, hplay]
  · simp only [fill_event, hpm, flood_fill_core_eq_some hx hy hne]
    exact ⟨_, rfl, rfl⟩

theorem playback_edit_history_witness :
    (stroke_event c2_state pm_red).stack = c2_state.stack ∧
    (stroke_event c2_state pm_red).index = c2_state.index ∧
    (stroke_event c2_state pm_red).frames =
      c2_state.frames.set c2_state.current_frame_index pm_red ∧
    ∃ e : Entry Pixmap,
      (fill_event c2_state redC 100 (0, 0)).stack =
        c2_state.stack.take c2_state.index ++ [e] ∧
      (fill_event c2_state redC 100 (0, 0)).index = c2_state.index + 1 :=
  playback_edit_history c2_state pm_red pm_black redC 100 (0, 0) rfl rfl
    (by decide) (by decide) (by decide)

/-- C4 counterexample: the automatic frame advance during playback
(next_frame) changes the active frame but leaves the non-empty undo stack
untouched, so history is not cleared on every way the active frame can
change. -/
theorem c4_counterexample :
    c4_state.current_frame_index = 0 ∧
    (next_frame c4_state).current_frame_index = 1 ∧
    (next_frame c4_state).stack.length = 1 := by
  refine ⟨rfl, ?_, ?_⟩ <;> rfl

/-- C4 amended: the history stack is cleared by every manual change of the
active frame (set_current_frame to a different valid index), by frame
deletion, and by animation reset; but the automatic frame advance during
playback (next_frame) changes the active frame while preserving the stack
and cursor. -/
theorem history_clear_scope {α : Type} (s : AppState α) (idx : Nat)
    (blank : α) :
    (idx < s.frames.length → idx ≠ s.current_frame_index →
      (set_current_frame s idx).stack = [] ∧
        (set_current_frame s idx).index = 0) ∧
    (1 < s.frames.length →
      (delete_current_frame s).stack = [] ∧
        (delete_current_frame s).index = 0) ∧
    ((new_animation blank s).stack = [] ∧ (new_animation blank s).index = 0) ∧
    (next_frame s).stack = s.stack ∧ (next_frame s).index = s.index := by
  refine ⟨?_, ?_, ⟨rfl, rfl⟩, ?_, ?_⟩
  · intro h1 h2
    simp [set_current_frame, h1, h2]
  · intro h1
    simp [delete_current_frame, h1]
  · unfold next_frame
    split <;> rfl
  · unfold next_frame
    split <;> rfl

theorem history_clear_scope_witness :
    ((1 : Nat) < c4_state.frames.length ∧
      (1 : Nat) ≠ c4_state.current_frame_index) ∧
    ((set_current_frame c4_state 1).stack = [] ∧
      (set_current_frame c4_state 1).index = 0) ∧
    ((delete_current_frame c4_state).stack = [] ∧
      (delete_current_frame c4_state).index = 0) ∧
    ((new_animation 0 c4_state).stack = [] ∧
      (new_animation 0 c4_state).index = 0) ∧
    ((next_frame c4_state).stack = c4_state.stack ∧
      (next_frame c4_state).index = c4_state.index) := by
  have h := history_clear_scope c4_state 1 0
  exact ⟨⟨by decide, by decide⟩, h.1 (by decide) (by decide), h.2.1 (by decide),
    h.2.2.1, h.2.2.2⟩

/-! ## Claim theorem: conversion format check -/

/-- C9: converting a pixel array that is not 4-channel back to an image
fails with the InvalidFormat error (raised, never silently coerced), while
converting any 4-channel uint8 array succeeds. -/
theorem numpy_to_qimage_format (arr : NpArray) :
    (arr.channels ≠ 4 →
      numpy_to_qimage arr = Except.error ConvError.invalidFormat) ∧
    (arr.channels = 4 → ∃ img : QImg, numpy_to_qimage arr = Except.ok img ∧
      img.width = arr.width ∧ img.height = arr.height) := by
  constructor
  · intro h
    simp [numpy_to_qimage, h]
  · intro h
    refine ⟨{ width := arr.width, height := arr.height,
              pix := fun p =>
                { r := arr.data p.2 p.1 0 % 256, g := arr.data p.2 p.1 1 % 256,
                  b := arr.data p.2 p.1 2 % 256,
                  a := arr.data p.2 p.1 3 % 256 } },
      ?_, rfl, rfl⟩
    simp [numpy_to_qimage, h]

theorem numpy_to_qimage_format_witness :
    arr3.channels ≠ 4 ∧
    numpy_to_qimage arr3 = Except.error ConvError.invalidFormat ∧
    (∃ img : QImg, numpy_to_qimage arr4 = Except.ok img ∧
      img.width = arr4.width ∧ img.height = arr4.height) :=
  ⟨by decide, (numpy_to_qimage_format arr3).1 (by decide),
    (numpy_to_qimage_format arr4).2 rfl⟩

/-! ## Canvas resize: helper lemmas -/

theorem getD_map_lt {α β : Type} (f : α → β) (l : List α) (k : Nat) (d : β)
    (d' : α) (hk : k < l.length) : (l.map f).getD k d = f (l.getD k d') := by
  induction l generalizing k with
  | nil => simp at hk
  | cons a t ih =>
    cases k with
    | zero => rfl
    | succ n => exact ih n (Nat.lt_of_succ_lt_succ hk)

theorem finalize_frames_map (s : AppState Pixmap) (last cur : Int × Int)
    (edge : Edge)
    (hch : ¬(resize_new_w s (cur.1 - last.1) edge = (s.canvas_w : Int) ∧
      resize_new_h s (cur.2 - last.2) edge = (s.canvas_h : Int))) :
    (finalize_canvas_resize s last cur edge).frames =
      s.frames.map (resized_pixmap (resize_shift_x s (cur.1 - last.1) edge)
        (resize_shift_y s (cur.2 - last.2) edge)
        (resize_new_w s (cur.1 - last.1) edge).toNat
        (resize_new_h s (cur.2 - last.2) edge).toNat) ∧
    (finalize_canvas_resize s last cur edge).canvas_w =
      (resize_new_w s (cur.1 - last.1) edge).toNat ∧
    (finalize_canvas_resize s last cur edge).canvas_h =
      (resize_new_h s (cur.2 - last.2) edge).toNat := by
  simp only [finalize_canvas_resize, if_neg hch]
  exact ⟨trivial, trivial, trivial⟩

theorem resized_pix_in (shiftX shiftY : Int) (newW newH : Nat) (old : Pixmap)
    (x y : Nat) (h1 : 0 ≤ (x : Int) - shiftX)
    (h2 : (x : Int) - shiftX < (old.width : Int))
    (h3 : 0 ≤ (y : Int) - shiftY)
    (h4 : (y : Int) - shiftY < (old.height : Int)) :
    (resized_pixmap shiftX shiftY newW newH old).pix (x, y) =
      old.pix (((x : Int) - shiftX).toNat, ((y : Int) - shiftY).toNat) := by
  show (if 0 ≤ (x : Int) - shiftX ∧ (x : Int) - shiftX < (old.width : Int) ∧
      0 ≤ (y : Int) - shiftY ∧ (y : Int) - shiftY < (old.height : Int) then
    old.pix (((x : Int) - shiftX).toNat, ((y : Int) - shiftY).toNat)
  else transparent) = _
  rw [if_pos ⟨h1, h2, h3, h4⟩]

theorem resized_pix_out (shiftX shiftY : Int) (newW newH : Nat) (old : Pixmap)
    (x y : Nat)
    (h : ¬(0 ≤ (x : Int) - shiftX ∧ (x : Int) - shiftX < (old.width : Int) ∧
      0 ≤ (y : Int) - shiftY ∧ (y : Int) - shiftY < (old.height : Int))) :
    (resized_pixmap shiftX shiftY newW newH old).pix (x, y) = transparent := by
  show (if 0 ≤ (x : Int) - shiftX ∧ (x : Int) - shiftX < (old.width : Int) ∧
      0 ≤ (y : Int) - shiftY ∧ (y : Int) - shiftY < (old.height : Int) then
    old.pix (((x : Int) - shiftX).toNat, ((y : Int) - shiftY).toNat)
  else transparent) = _
  rw [if_neg h]

/-- C5: canvas resize content. (a) Dragging only the right and/or bottom
edges outward keeps all existing pixel content at its original offset.
(b) For any effective resize, every rebuilt frame reads its pixel (x, y)
from the old frame at (x, y) minus the content shift — for a left (top) drag
the shift along that axis is old dimension minus new dimension — and is
transparent where that source position falls outside the old frame (content
shifted out of bounds is cropped, vacated area is transparent). (c) After a
resize the canvas dimensions never drop below 100. -/
theorem canvas_resize_content :
    (∀ (s : AppState Pixmap) (l1 l2 : Int) (dx dy : Nat) (r b : Bool)
        (k x y : Nat) (dpm : Pixmap),
      x < (s.frames.getD k dpm).width →
      y < (s.frames.getD k dpm).height →
      ((finalize_canvas_resize s (l1, l2) (l1 + (dx : Int), l2 + (dy : Int))
          ⟨false, r, false, b⟩).frames.getD k dpm).pix (x, y) =
        (s.frames.getD k dpm).pix (x, y)) ∧
    (∀ (s : AppState Pixmap) (l1 l2 : Int) (dx dy : Nat),
      0 < dx → 0 < dy → 100 ≤ s.canvas_w → 100 ≤ s.canvas_h →
      (finalize_canvas_resize s (l1, l2) (l1 + (dx : Int), l2)
          edge_right).canvas_w = s.canvas_w + dx ∧
      (finalize_canvas_resize s (l1, l2) (l1 + (dx : Int), l2)
          edge_right).canvas_h = s.canvas_h ∧
      (finalize_canvas_resize s (l1, l2) (l1, l2 + (dy : Int))
          edge_bottom).canvas_h = s.canvas_h + dy ∧
      (finalize_canvas_resize s (l1, l2) (l1, l2 + (dy : Int))
          edge_bottom).canvas_w = s.canvas_w) ∧
    (∀ (s : AppState Pixmap) (last cur : Int × Int) (edge : Edge)
        (k x y : Nat) (dpm : Pixmap),
      k < s.frames.length →
      ¬(resize_new_w s (cur.1 - last.1) edge = (s.canvas_w : Int) ∧
        resize_new_h s (cur.2 - last.2) edge = (s.canvas_h : Int)) →
      ((0 ≤ (x : Int) - resize_shift_x s (cur.1 - last.1) edge →
        (x : Int) - resize_shift_x s (cur.1 - last.1) edge <
          ((s.frames.getD k dpm).width : Int) →
        0 ≤ (y : Int) - resize_shift_y s (cur.2 - last.2) edge →
        (y : Int) - resize_shift_y s (cur.2 - last.2) edge <
          ((s.frames.getD k dpm).height : Int) →
        ((finalize_canvas_resize s last cur edge).frames.getD k dpm).pix
            (x, y) =
          (s.frames.getD k dpm).pix
            (((x : Int) - resize_shift_x s (cur.1 - last.1) edge).toNat,
              ((y : Int) - resize_shift_y s (cur.2 - last.2) edge).toNat)) ∧
      ((x : Int) - resize_shift_x s (cur.1 - last.1) edge < 0 ∨
          ((s.frames.getD k dpm).width : Int) ≤
            (x : Int) - resize_shift_x s (cur.1 - last.1) edge →
        ((finalize_canvas_resize s last cur edge).frames.getD k dpm).pix
            (x, y) = transparent))) ∧
    (∀ (s : AppState Pixmap) (last cur : Int × Int) (edge : Edge),
      finalize_canvas_resize s last cur edge = s ∨
        (100 ≤ (finalize_canvas_resize s last cur edge).canvas_w ∧
          100 ≤ (finalize_canvas_resize s last cur edge).canvas_h)) := by
  have hmin : ∀ (s : AppState Pixmap) (dx : Int) (edge : Edge),
      (100 : Int) ≤ resize_new_w s dx edge :=
    fun s dx edge => le_max_right _ _
  have hminh : ∀ (s : AppState Pixmap) (dy : Int) (edge : Edge),
      (100 : Int) ≤ resize_new_h s dy edge :=
    fun s dy edge => le_max_right _ _
  refine ⟨?_, ?_, ?_, ?_⟩
  · intro s l1 l2 dx dy r b k x y dpm hx hy
    by_cases hch : resize_new_w s ((l1 + (dx : Int), l2 + (dy : Int)).1 -
        ((l1 : Int), (l2 : Int)).1) ⟨false, r, false, b⟩ = (s.canvas_w : Int) ∧
      resize_new_h s ((l1 + (dx : Int), l2 + (dy : Int)).2 -
        ((l1 : Int), (l2 : Int)).2) ⟨false, r, false, b⟩ = (s.canvas_h : Int)
    · simp only [finalize_canvas_resize, if_pos hch]
    · obtain ⟨hf, _, _⟩ :=
        finalize_frames_map s (l1, l2) (l1 + (dx : Int), l2 + (dy : Int))
          ⟨false, r, false, b⟩ hch
      rw [hf]
      by_cases hk : k < s.frames.length
      · rw [getD_map_lt _ _ k dpm dpm hk]
        have hsx : resize_shift_x s ((l1 + (dx : Int), l2 + (dy : Int)).1 -
            ((l1 : Int), (l2 : Int)).1) ⟨false, r, false, b⟩ = 0 := rfl
        have hsy : resize_shift_y s ((l1 + (dx : Int), l2 + (dy : Int)).2 -
            ((l1 : Int), (l2 : Int)).2) ⟨false, r, false, b⟩ = 0 := rfl
        rw [hsx, hsy, resized_pix_in 0 0 _ _ _ x y (by omega)
          (by omega) (by omega) (by omega)]
        norm_num
      · rw [List.getD_eq_default, List.getD_eq_default]
        · omega
        · rw [List.length_map]
          omega
  · intro s l1 l2 dx dy hdx hdy hw hh
    have hNW : ∀ l2' : Int, resize_new_w s ((l1 + (dx : Int), l2').1 -
        ((l1 : Int), (l2 : Int)).1) edge_right = ((s.canvas_w + dx : Nat) : Int) := by
      intro l2'
      show max ((s.canvas_w : Int) - 0 + ((l1 + (dx : Int)) - l1)) 100 = _
      push_cast
      omega
    have hNH : ∀ l1' : Int, resize_new_h s ((l1', l2).2 -
        ((l1 : Int), (l2 : Int)).2) edge_right = (s.canvas_h : Int) := by
      intro l1'
      show max ((s.canvas_h : Int) - 0 + 0) 100 = _
      omega
    have hBW : ∀ l2' : Int, resize_new_w s (((l1 : Int), l2').1 -
        ((l1 : Int), (l2 : Int)).1) edge_bottom = (s.canvas_w : Int) := by
      intro l2'
      show max ((s.canvas_w : Int) - 0 + 0) 100 = _
      omega
    have hBH : resize_new_h s (((l1 : Int), l2 + (dy : Int)).2 -
        ((l1 : Int), (l2 : Int)).2) edge_bottom = ((s.canvas_h + dy : Nat) : Int) := by
      show max ((s.canvas_h : Int) - 0 + ((l2 + (dy : Int)) - l2)) 100 = _
      push_cast
      omega
    have hchR : ¬(resize_new_w s ((l1 + (dx : Int), l2).1 -
        ((l1 : Int), (l2 : Int)).1) edge_right = (s.canvas_w : Int) ∧
      resize_new_h s ((l1 + (dx : Int), l2).2 -
        ((l1 : Int), (l2 : Int)).2) edge_right = (s.canvas_h : Int)) := by
      intro hcon
      have h1 := hcon.1
      rw [hNW l2] at h1
      omega
    have hchB : ¬(resize_new_w s (((l1 : Int), l2 + (dy : Int)).1 -
        ((l1 : Int), (l2 : Int)).1) edge_bottom = (s.canvas_w : Int) ∧
      resize_new_h s (((l1 : Int), l2 + (dy : Int)).2 -
        ((l1 : Int), (l2 : Int)).2) edge_bottom = (s.canvas_h : Int)) := by
      intro hcon
      have h2 := hcon.2
      rw [hBH] at h2
      omega
    obtain ⟨_, hw1, hh1⟩ :=
      finalize_frames_map s (l1, l2) (l1 + (dx : Int), l2) edge_right hchR
    obtain ⟨_, hw2, hh2⟩ :=
      finalize_frames_map s (l1, l2) (l1, l2 + (dy : Int)) edge_bottom hchB
    refine ⟨?_, ?_, ?_, ?_⟩
    · rw [hw1, hNW l2, Int.toNat_natCast]
    · rw [hh1, hNH (l1 + (dx : Int))]
      omega
    · rw [hh2, hBH, Int.toNat_natCast]
    · rw [hw2, hBW (l2 + (dy : Int))]
      omega
  · intro s last cur edge k x y dpm hk hch
    obtain ⟨hf, _, _⟩ := finalize_frames_map s last cur edge hch
    constructor
    · intro h1 h2 h3 h4
      rw [hf, getD_map_lt _ _ k dpm dpm hk]
      exact resized_pix_in _ _ _ _ _ x y h1 h2 h3 h4
    · intro hout
      rw [hf, getD_map_lt _ _ k dpm dpm hk]
      apply resized_pix_out
      intro hcon
      rcases hout with hlt | hge
      · exact absurd hcon.1 (not_le.mpr hlt)
      · exact absurd hcon.2.1 (not_lt.mpr hge)
  · intro s last cur edge
    by_cases hch : resize_new_w s (cur.1 - last.1) edge = (s.canvas_w : Int) ∧
      resize_new_h s (cur.2 - last.2) edge = (s.canvas_h : Int)
    · left
      simp only [finalize_canvas_resize, if_pos hch]
    · right
      obtain ⟨_, hw, hh2⟩ := finalize_frames_map s last cur edge hch
      rw [hw, hh2]
      have h1 := hmin s (cur.1 - last.1) edge
      have h2 := hminh s (cur.2 - last.2) edge
      omega

theorem canvas_resize_content_witness :
    ((finalize_canvas_resize c5_state (0, 0) (30, 0) edge_right).frames.getD 0
        pm_black).pix (5, 7) = (c5_state.frames.getD 0 pm_black).pix (5, 7) ∧
    (finalize_canvas_resize c5_state (0, 0) (30, 0) edge_right).canvas_w =
      c5_state.canvas_w + 30 ∧
    ((finalize_canvas_resize c5_state (0, 0) (20, 0) edge_left).frames.getD 0
        pm_black).pix (25, 7) = (c5_state.frames.getD 0 pm_black).pix (5, 7) ∧
    ((finalize_canvas_resize c5_state (0, 0) (20, 0) edge_left).frames.getD 0
        pm_black).pix (5, 7) = transparent ∧
    (finalize_canvas_resize c5_state (0, 0) (30, 0) edge_right = c5_state ∨
      (100 ≤ (finalize_canvas_resize c5_state (0, 0) (30, 0)
          edge_right).canvas_w ∧
        100 ≤ (finalize_canvas_resize c5_state (0, 0) (30, 0)
          edge_right).canvas_h)) := by
  refine ⟨?_, ?_, ?_, ?_, ?_⟩
  · exact canvas_resize_content.1 c5_state 0 0 30 0 true false 0 5 7 pm_black
      (by decide) (by decide)
  · exact (canvas_resize_content.2.1 c5_state 0 0 30 40 (by decide) (by decide)
      (by decide) (by decide)).1
  · exact (canvas_resize_content.2.2.1 c5_state (0, 0) (20, 0) edge_left 0 25 7
      pm_black (by decide) (by decide)).1 (by decide) (by decide) (by decide)
      (by decide)
  · exact (canvas_resize_content.2.2.1 c5_state (0, 0) (20, 0) edge_left 0 5 7
      pm_black (by decide) (by decide)).2 (by decide)
  · exact canvas_resize_content.2.2.2 c5_state (0, 0) (30, 0) edge_right

/-! ## Claim theorems: dimension invariant under resize -/

/-- C6 counterexample: canvas resize replaces every frame buffer but does
not clear the history stack; undoing the pre-resize edit afterwards restores
a 100-wide buffer while the other frame is 150 wide, so the frame buffers no
longer share the canvas dimensions after resize followed by undo. -/
theorem c6_counterexample :
    (c6_after.frames.getD 0 pm_black).width = 100 ∧
    (c6_after.frames.getD 1 pm_black).width = 150 ∧
    c6_after.canvas_w = 150 ∧
    c6_after.stack.length = 1 := by
  refine ⟨?_, ?_, ?_, ?_⟩ <;> rfl

/-- C6 amended: immediately after a canvas resize all frame buffers have the
new canvas dimensions (identical across frames), and the resize bypasses the
Edit History without clearing it (stack and cursor are preserved, not
dropped); because stale pre-resize entries survive, the
identical-dimensions invariant is not preserved by a later undo. -/
theorem resize_dimension_invariant (s : AppState Pixmap) (last cur : Int × Int)
    (edge : Edge)
    (hinv : ∀ pm ∈ s.frames, pm.width = s.canvas_w ∧ pm.height = s.canvas_h) :
    (∀ pm ∈ (finalize_canvas_resize s last cur edge).frames,
      pm.width = (finalize_canvas_resize s last cur edge).canvas_w ∧
      pm.height = (finalize_canvas_resize s last cur edge).canvas_h) ∧
    (finalize_canvas_resize s last cur edge).stack = s.stack ∧
    (finalize_canvas_resize s last cur edge).index = s.index := by
  by_cases hch : resize_new_w s (cur.1 - last.1) edge = (s.canvas_w : Int) ∧
    resize_new_h s (cur.2 - last.2) edge = (s.canvas_h : Int)
  · simp only [finalize_canvas_resize, if_pos hch]
    exact ⟨hinv, trivial, trivial⟩
  · simp only [finalize_canvas_resize, if_neg hch]
    refine ⟨?_, trivial, trivial⟩
    intro pm hpm
    rw [List.mem_map] at hpm
    obtain ⟨pm0, _, heq⟩ := hpm
    rw [← heq]
    exact ⟨rfl, rfl⟩

theorem resize_dimension_invariant_witness :
    (∀ pm ∈ c6_state.frames, pm.width = c6_state.canvas_w ∧
      pm.height = c6_state.canvas_h) ∧
    ((∀ pm ∈ (finalize_canvas_resize c6_state (100, 50) (150, 50)
          edge_right).frames,
        pm.width = (finalize_canvas_resize c6_state (100, 50) (150, 50)
          edge_right).canvas_w ∧
        pm.height = (finalize_canvas_resize c6_state (100, 50) (150, 50)
          edge_right).canvas_h) ∧
      (finalize_canvas_resize c6_state (100, 50) (150, 50) edge_right).stack =
        c6_state.stack ∧
      (finalize_canvas_resize c6_state (100, 50) (150, 50) edge_right).index =
        c6_state.index) :=
  ⟨by decide,
    resize_dimension_invariant c6_state (100, 50) (150, 50) edge_right
      (by decide)⟩

/-! ## Spray paint: helper lemmas -/

theorem spray_loop_length (d radius : ℚ) (center : ℚ × ℚ) :
    ∀ (n : Nat) (rs : RandStream), (spray_loop d radius center n rs).length = n := by
  intro n
  induction n with
  | zero =>
    intro rs
    rfl
  | succ n ih =>
    intro rs
    simp [spray_loop, ih]

theorem spray_loop_zero_succ (radius : ℚ) (center : ℚ × ℚ) (n : Nat)
    (rs : RandStream) :
    spray_loop 0 radius center (n + 1) rs =
      (center.1 + (rs 0 - 1/2) * radius * 2,
        center.2 + (rs 1 - 1/2) * radius * 2) ::
        spray_loop 0 radius center n (rngDrop 2 rs) := by
  simp [spray_loop, wavery_point]

theorem spray_loop_bound (radius : ℚ) (hr : 0 ≤ radius) (center : ℚ × ℚ) :
    ∀ (n : Nat) (rs : RandStream), (∀ m, 0 ≤ rs m ∧ rs m ≤ 1) →
    ∀ p ∈ spray_loop 0 radius center n rs,
      |p.1 - center.1| ≤ radius ∧ |p.2 - center.2| ≤ radius := by
  intro n
  induction n with
  | zero =>
    intro rs _ p hp
    simp [spray_loop] at hp
  | succ n ih =>
    intro rs hrs p hp
    rw [spray_loop_zero_succ] at hp
    rcases List.mem_cons.mp hp with hp1 | hp2
    · subst hp1
      have h0 := hrs 0
      have h1 := hrs 1
      constructor
      · show |center.1 + (rs 0 - 1/2) * radius * 2 - center.1| ≤ radius
        rw [add_sub_cancel_left, abs_le]
        constructor <;>
          nlinarith [mul_nonneg h0.1 hr, mul_nonneg (sub_nonneg.mpr h0.2) hr]
      · show |center.2 + (rs 1 - 1/2) * radius * 2 - center.2| ≤ radius
        rw [add_sub_cancel_left, abs_le]
        constructor <;>
          nlinarith [mul_nonneg h1.1 hr, mul_nonneg (sub_nonneg.mpr h1.2) hr]
    · exact ih (rngDrop 2 rs) (fun m => hrs (m + 2)) p hp2

/-! ## Claim theorems: spray paint -/

/-- C8 counterexample: with width 10 and the random stream constantly 0.95,
the first spray mark lands at offset (13.5, 13.5) from the center, at
squared distance 364.5 — outside the disc of radius 1.5 × width = 15
(squared radius 225). Spray offsets are uniform per axis over a square, not
over a disc. -/
theorem spray_disc_counterexample :
    (spray_paint black 100 10 0 (0, 0) rs95).points.headD (0, 0) =
      ((27 : ℚ) / 2, (27 : ℚ) / 2) ∧
    ¬ (((27 : ℚ) / 2 - 0) ^ 2 + ((27 : ℚ) / 2 - 0) ^ 2 ≤
        ((3 : ℚ) / 2 * 10) ^ 2) := by
  constructor
  · show (spray_loop 0 (((10 : Nat) : ℚ) * 3 / 2) (0, 0) (10 * 2) rs95).headD
      (0, 0) = _
    rw [show (10 * 2 : Nat) = 19 + 1 from rfl, spray_loop_zero_succ,
      List.headD_cons]
    norm_num [rs95]
  · norm_num

/-- C8 amended: every spray operation draws exactly N = 2 × width
individually jittered point-marks with a pen of width max(1, width / 4) and
the configured color with alpha from the opacity; with no waver and draws in
[0, 1], each mark lies within the axis-aligned square of half-side
1.5 × width around the center point (per-axis offset at most 1.5 × width) —
not within the disc of that radius. -/
theorem spray_paint_spec (c : Color) (opacity size : Nat) (center : ℚ × ℚ)
    (rs : RandStream) (hrs : ∀ m, 0 ≤ rs m ∧ rs m ≤ 1) :
    (spray_paint c opacity size 0 center rs).points.length = 2 * size ∧
    (spray_paint c opacity size 0 center rs).penWidth = max 1 (size / 4) ∧
    (spray_paint c opacity size 0 center rs).penColor = fill_color_of c opacity ∧
    ∀ p ∈ (spray_paint c opacity size 0 center rs).points,
      |p.1 - center.1| ≤ (size : ℚ) * 3 / 2 ∧
      |p.2 - center.2| ≤ (size : ℚ) * 3 / 2 := by
  refine ⟨?_, rfl, rfl, ?_⟩
  · show (spray_loop 0 ((size : ℚ) * 3 / 2) center (size * 2) rs).length =
      2 * size
    rw [spray_loop_length]
    omega
  · intro p hp
    exact spray_loop_bound ((size : ℚ) * 3 / 2) (by positivity) center
      (size * 2) rs hrs p hp

theorem spray_paint_spec_witness :
    (spray_paint black 100 10 0 (0, 0) rs95).points.length = 2 * 10 ∧
    (spray_paint black 100 10 0 (0, 0) rs95).penWidth = max 1 (10 / 4) ∧
    (spray_paint black 100 10 0 (0, 0) rs95).penColor =
      fill_color_of black 100 ∧
    ∀ p ∈ (spray_paint black 100 10 0 (0, 0) rs95).points,
      |p.1 - ((0 : ℚ), (0 : ℚ)).1| ≤ ((10 : Nat) : ℚ) * 3 / 2 ∧
      |p.2 - ((0 : ℚ), (0 : ℚ)).2| ≤ ((10 : Nat) : ℚ) * 3 / 2 :=
  spray_paint_spec black 100 10 (0, 0) rs95
    (fun m => ⟨by norm_num [rs95], by norm_num [rs95]⟩)

end SpiralAnimator
